import Mathlib

/-!
Verification of the DistribuitedFileSystem central server
(src/CentralServer: main.go, file_manager.go, node_manager.go, utils.go,
plus the RedisManager helper file).

The Go code is shallowly embedded: byte slices become `List Nat`, the
in-memory node registry becomes a pair of lists, the external Redis store
and the storage nodes become explicit finite maps threaded through the
operations, and the network is a parameter giving each call's outcome.
HTTP handlers are modelled as functions from the decoded request data to
the response status and the new state.  The SHA-256 digest and the pgzip
codec are external collaborators and appear as parameters (`digest`,
`hashBytes`, `compress`/`decompress`).
-/

/-- `MB` constant from `main.go`: `const MB = 1024 * 1024`. -/
def MB : Nat := 1024 * 1024

/-- `maxNodeSize` from `main.go`: `const maxNodeSize = 128 * MB`. -/
def maxNodeSize : Nat := 128 * MB

/-- `FileBlock` from `main.go`: a slice of the (compressed) payload plus its
1-based position. -/
structure FileBlock where
  bytes : List Nat
  position : Nat
deriving DecidableEq

/-- `SplitFileIntoBlocks` from `utils.go` (lines 12–30).  A Go slice
`file[a : a+m]` is `(file.drop a).take m`; the `container/list` result is a
plain Lean list.  `numOfBlocks = len(file) / maxBlockSize`; when it is zero
the whole payload is one block at position 1, otherwise `numOfBlocks` full
blocks are emitted followed by the remainder block (possibly empty). -/
def SplitFileIntoBlocks (file : List Nat) : List FileBlock :=
  let maxBlockSize := 128 * MB
  let numOfBlocks := file.length / maxBlockSize
  if numOfBlocks = 0 then
    [{ bytes := file, position := 1 }]
  else
    (List.range numOfBlocks).map
      (fun i => { bytes := (file.drop (maxBlockSize * i)).take maxBlockSize,
                  position := i + 1 })
    ++ [{ bytes := file.drop (maxBlockSize * numOfBlocks),
          position := numOfBlocks + 1 }]

/-- The block-metadata key material `fileName + "-block-" + strconv.Itoa(pos)`
used both by `SendBlockToNode` and `ReconstructFileFromBlocks`. -/
def blockName (fileName : String) (position : Nat) : String :=
  fileName ++ "-block-" ++ toString position

/-- The block's file name on the storage node:
`fileName + "-block-" + strconv.Itoa(pos) + ".bin"`. -/
def blockBinName (fileName : String) (position : Nat) : String :=
  blockName fileName position ++ ".bin"

/- ### Splitter lemmas -/

theorem flatten_chunks (m : Nat) (f : List Nat) :
    ∀ n : Nat,
      ((List.range n).map (fun i => (f.drop (m * i)).take m)).flatten =
        f.take (m * n) := by
  intro n
  induction n with
  | zero => simp
  | succ k ih =>
      rw [List.range_succ, List.map_append, List.flatten_append, ih]
      simp only [List.map_cons, List.map_nil, List.flatten_cons,
        List.flatten_nil, List.append_nil]
      rw [Nat.mul_succ, List.take_add]

theorem range'_one_eq_map (n : Nat) :
    List.range' 1 n = (List.range n).map (· + 1) := by
  induction n with
  | zero => rfl
  | succ k ih =>
      rw [List.range_succ, List.map_append, ← ih]
      have h := @List.range'_concat 1 1 k
      simpa [Nat.add_comm] using h

theorem splitFile_map_position (file : List Nat) :
    (SplitFileIntoBlocks file).map FileBlock.position =
      List.range' 1 (SplitFileIntoBlocks file).length := by
  unfold SplitFileIntoBlocks
  by_cases h : file.length / (128 * MB) = 0
  · simp [h]
  · rw [if_neg h]
    rw [List.map_append, List.map_map]
    simp only [List.map_cons, List.map_nil, Function.comp_def]
    rw [List.length_append, List.length_map, List.length_range]
    simp only [List.length_cons, List.length_nil]
    rw [range'_one_eq_map (file.length / (128 * MB) + 1), List.range_succ,
      List.map_append]
    simp

theorem splitFile_flatten (file : List Nat) :
    ((SplitFileIntoBlocks file).map FileBlock.bytes).flatten = file := by
  unfold SplitFileIntoBlocks
  by_cases h : file.length / (128 * MB) = 0
  · simp [h]
  · rw [if_neg h]
    rw [List.map_append, List.map_map, List.flatten_append]
    simp only [Function.comp_def, List.map_cons, List.map_nil, List.flatten_cons,
      List.flatten_nil, List.append_nil]
    rw [flatten_chunks, List.take_append_drop]

theorem splitFile_block_le (file : List Nat) :
    ∀ b ∈ SplitFileIntoBlocks file, b.bytes.length ≤ 128 * MB := by
  intro b hb
  have hMB : 0 < 128 * MB := by norm_num [MB]
  unfold SplitFileIntoBlocks at hb
  by_cases h : file.length / (128 * MB) = 0
  · simp only [h, if_pos rfl] at hb
    rcases List.mem_singleton.mp hb with rfl
    have := (Nat.div_eq_zero_iff hMB).mp h
    exact Nat.le_of_lt this
  · rw [if_neg h] at hb
    simp only [List.mem_append, List.mem_map, List.mem_singleton] at hb
    rcases hb with ⟨i, _, rfl⟩ | hb2
    · simp
    · subst hb2
      simp only [List.length_drop]
      have hmod := Nat.div_add_mod file.length (128 * MB)
      have hlt := Nat.mod_lt file.length hMB
      omega

theorem splitFile_length_pos (file : List Nat) :
    1 ≤ (SplitFileIntoBlocks file).length := by
  unfold SplitFileIntoBlocks
  by_cases h : file.length / (128 * MB) = 0 <;> simp [h]

/- ### Node registry (node_manager.go) -/

/-- `Node` from `node_manager.go`: `{address string; usage int}`. -/
structure Node where
  address : String
  usage : Nat
deriving DecidableEq

/-- The comparison `nodes[i].usage < nodes[j].usage` passed to `sort.Slice`,
as a non-strict ordering suitable for stating sortedness. -/
def nodeLE (a b : Node) : Prop := a.usage ≤ b.usage

instance : DecidableRel nodeLE :=
  fun a b => inferInstanceAs (Decidable (a.usage ≤ b.usage))

instance : IsTotal Node nodeLE := ⟨fun a b => Nat.le_total a.usage b.usage⟩

instance : IsTrans Node nodeLE := ⟨fun _ _ _ h1 h2 => Nat.le_trans h1 h2⟩

/-- `sort.Slice(nodes, func(i, j) { return nodes[i].usage < nodes[j].usage })`:
an unspecified sorted permutation, embedded as insertion sort by usage. -/
def sortNodesByUsage (l : List Node) : List Node :=
  List.insertionSort nodeLE l

/-- The mutable registry state of `nodeManager`: the raw address list and the
cached usage snapshot (`NodeAddresses`, `NodeStats`). -/
structure NMState where
  NodeAddresses : List String
  NodeStats : List Node
deriving DecidableEq

/-- `SelectAndUpdateNode` from `node_manager.go` (lines 171–180): under the
mutex, read `NodeStats[0]`, speculatively add the block length to that entry's
usage, re-sort, and return the *pre-increment* copy.  Go indexes `NodeStats[0]`
unconditionally and panics on an empty slice; the panic is modelled as
`none`. -/
def SelectAndUpdateNode (stats : List Node) (blockLen : Nat) :
    Option (Node × List Node) :=
  match stats with
  | [] => none
  | selectedNode :: rest =>
      some (selectedNode,
        sortNodesByUsage
          ({ selectedNode with usage := selectedNode.usage + blockLen } :: rest))

/-- The `NodeStats` loop of `DeleteNode` (node_manager.go lines 184–189):
`for i := range NodeStats { if NodeStats[i].address == node.address {
NodeStats[i] = NodeStats[len(NodeStats)-1] } }`.  The slice is never
truncated: each matching entry is overwritten by the (original) last entry,
which itself is only ever self-assigned, so the loop is a `map`.  The length
never changes. -/
def deleteFromStats (stats : List Node) (a : String) : List Node :=
  match stats.getLast? with
  | none => stats
  | some lst => stats.map (fun x => if x.address = a then lst else x)

/-- The `NodeAddresses` loop of `DeleteNode` (node_manager.go lines 191–196),
same shape as `deleteFromStats`. -/
def deleteFromAddresses (addrs : List String) (a : String) : List String :=
  match addrs.getLast? with
  | none => addrs
  | some lst => addrs.map (fun x => if x = a then lst else x)

/-- `DeleteNode` from `node_manager.go` (lines 182–198). -/
def DeleteNode (st : NMState) (node : Node) : NMState :=
  { NodeAddresses := deleteFromAddresses st.NodeAddresses node.address,
    NodeStats := deleteFromStats st.NodeStats node.address }

/-- Outcome of one `GET /getCurrentNodeSpace` poll in `RetrieveNodeStats`:
a transport error (the `continue` branch), a JSON decode error (the
`return nil, err` branch), or a usage value. -/
inductive PollResult where
  | transportError
  | decodeError
  | ok (size : Nat)

/-- The polling loop of `RetrieveNodeStats` (node_manager.go lines 108–137). -/
def retrieveNodesLoop (poll : String → PollResult) :
    List String → List Node → Option (List Node)
  | [], acc => some acc
  | addr :: rest, acc =>
      match poll addr with
      | .transportError => retrieveNodesLoop poll rest acc
      | .decodeError => none
      | .ok size => retrieveNodesLoop poll rest (acc ++ [⟨addr, size⟩])

/-- `RetrieveNodeStats` from `node_manager.go` (lines 105–148): poll every
registered address, skip transport failures, fail on a decode error, fail
with the unavailable error when zero nodes responded, otherwise return the
responders sorted ascending by usage.  Both failure modes are collapsed to
`none` (no claim distinguishes them). -/
def RetrieveNodeStats (addrs : List String) (poll : String → PollResult) :
    Option (List Node) :=
  match retrieveNodesLoop poll addrs [] with
  | none => none
  | some nodes => if nodes = [] then none else some (sortNodesByUsage nodes)

/-- `registerNode` from `node_manager.go` (lines 77–103): append the address,
refresh the usage snapshot, and keep the old snapshot when the refresh
errors.  (The Redis `LPush` of a status record only feeds logging and is not
modelled.) -/
def registerNode (st : NMState) (poll : String → PollResult) (node : String) :
    NMState :=
  let addrs := st.NodeAddresses ++ [node]
  match RetrieveNodeStats addrs poll with
  | some stats => { NodeAddresses := addrs, NodeStats := stats }
  | none => { NodeAddresses := addrs, NodeStats := st.NodeStats }

/-- Outcome of the `GET <url>/health` probe in `VerifyAndRegisterNode`:
either the transport fails (`err != nil`) or a status code comes back. -/
inductive HttpProbe where
  | transportError
  | status (code : Nat)

/-- Result of the `/addNode` handler: the sequence of HTTP status codes
written to the response plus the registry afterwards, or a panic (a nil
`err.Error()` dereference). -/
inductive RegistrationOutcome where
  | responded (writes : List Nat) (st : NMState)
  | panicked
deriving DecidableEq

/-- `VerifyAndRegisterNode` from `node_manager.go` (lines 47–75).
`decodeOk`/`urlValid` are the outcomes of the JSON decode and
`url.ParseRequestURI`.  Note the probe-failure branch (lines 67–69) writes a
500 **without returning**, so execution falls through to `registerNode` and
the final 200; and when the probe returns a non-200 status with a nil
transport error, `err.Error()` dereferences nil and the handler panics. -/
def VerifyAndRegisterNode (st : NMState) (poll : String → PollResult)
    (decodeOk urlValid : Bool) (url : String) (health : HttpProbe) :
    RegistrationOutcome :=
  if !decodeOk then .responded [400] st
  else if !urlValid then .responded [400] st
  else
    match health with
    | .transportError => .responded [500, 200] (registerNode st poll url)
    | .status code =>
        if code ≠ 200 then .panicked
        else .responded [200] (registerNode st poll url)

/- ### Metadata store and storage nodes (file_manager.go, RedisManager) -/

/-- A value in the Redis keyspace: `SendBlockHashWithNumberOfBlocks` stores a
string-typed integer (the block count) via `Set`, while `TransmitBlock`
stores a hash with fields `node_address` and `block_hash` via `HSet`.  A
write of either shape replaces whatever was at the key. -/
inductive RedisValue where
  | count (n : Nat)
  | location (nodeAddress : String) (blockHash : String)
deriving DecidableEq

/-- The external state the coordinator talks to: the Redis keyspace and, per
node address, the files held by that storage node (keyed by the uploaded
file name). -/
structure Stores where
  meta : String → Option RedisValue
  nodeFiles : String → String → Option (List Nat)

/-- `GetNumberOfBlocksOfAFile` (RedisManager): `strconv.Atoi(Get(key).Val())`.
A missing key or a hash-typed key makes `Get`/`Atoi` error with value `""`,
so the integer result is 0; `ReconstructFileFromBlocks` discards the error
(`numOfBlocks, _ := ...`), so only the 0 remains. -/
def GetNumberOfBlocksOfAFile (meta : String → Option RedisValue)
    (key : String) : Nat :=
  match meta key with
  | some (.count n) => n
  | _ => 0

/-- `SendBlockHashWithNumberOfBlocks` (RedisManager): `Set(hex(digest(fileName)),
blockCount)`, performed by the upload handler before any block is
distributed. -/
def SendBlockHashWithNumberOfBlocks (digest : String → String)
    (fileName : String) (blockCount : Nat) (s : Stores) : Stores :=
  { s with meta := (Function.update s.meta (digest fileName)
      (some (.count blockCount))) }

/-- The per-upload context: the key digest (`GenerateFileHash`, hex-rendered
SHA-256 of a string), the payload digest (`GenerateBlockHash`, hex-rendered
SHA-256 of bytes), and the outcome of POSTing a block to a given node
address (`true` = transport succeeded with status 200). -/
structure UploadCtx where
  digest : String → String
  hashBytes : List Nat → String
  transmit : String → Bool

/-- `TransmitBlock` from `file_manager.go` (lines 419–479): first `HSet` the
location record `{node_address, block_hash}` under the block key, then POST
the block to `<address>/receiveFile`.  The record is written even when the
POST then fails; on a successful POST the (healthy) node stores the block
under its `.bin` name.  Returns whether the transmission succeeded. -/
def TransmitBlock (ctx : UploadCtx) (formattedBs : String)
    (selectedNode : Node) (blockDataHash : String) (blockBytes : List Nat)
    (binName : String) (s : Stores) : Bool × Stores :=
  let s1 : Stores :=
    { s with meta := (Function.update s.meta formattedBs
        (some (.location selectedNode.address blockDataHash))) }
  if ctx.transmit selectedNode.address then
    (true,
      { s1 with nodeFiles := (Function.update s1.nodeFiles selectedNode.address
          (Function.update (s1.nodeFiles selectedNode.address) binName
            (some blockBytes))) })
  else (false, s1)

/-- Terminal outcome of one block's task in `SendBlockToNode`: success, the
`"all nodes are full"` error (the spec's CapacityError), or the
`"no available nodes"` error (the spec's UnavailableError). -/
inductive BlockOutcome where
  | ok
  | allNodesFull
  | noAvailableNodes
deriving DecidableEq

/-- The retry loop of `SendBlockToNode` (file_manager.go lines 313–358):
attempt the transmission; on success finish; on failure `DeleteNode` the
selected node, fail with the `"no available nodes"` error if `NodeStats` is
now empty, otherwise select a fresh node and loop.  The Go loop is
`for {}` with no bound, so it is embedded with fuel: `none` means the loop
was still running after `fuel` iterations. -/
def sendBlockLoop (ctx : UploadCtx) (block : FileBlock) (fileName : String) :
    Nat → Node → NMState → Stores → Option (BlockOutcome × NMState × Stores)
  | 0, _, _, _ => none
  | fuel + 1, selectedNode, nm, s =>
      let r := TransmitBlock ctx (ctx.digest (blockName fileName block.position))
        selectedNode (ctx.hashBytes block.bytes) block.bytes
        (blockBinName fileName block.position) s
      if r.1 then some (.ok, nm, r.2)
      else
        let nm' := DeleteNode nm selectedNode
        if nm'.NodeStats = [] then some (.noAvailableNodes, nm', r.2)
        else
          match SelectAndUpdateNode nm'.NodeStats block.bytes.length with
          | none => none
          | some (sel', stats') =>
              sendBlockLoop ctx block fileName fuel sel'
                { nm' with NodeStats := stats' } r.2

/-- `SendBlockToNode` from `file_manager.go` (lines 276–359): select and
reserve a node, fail with the `"all nodes are full"` error when the selected
node's (pre-increment) usage exceeds `2*maxNodeSize`, otherwise run the
retry loop.  Selection on an empty `NodeStats` panics in Go (`NodeStats[0]`),
modelled as `none`. -/
def SendBlockToNode (ctx : UploadCtx) (block : FileBlock) (fileName : String)
    (fuel : Nat) (nm : NMState) (s : Stores) :
    Option (BlockOutcome × NMState × Stores) :=
  match SelectAndUpdateNode nm.NodeStats block.bytes.length with
  | none => none
  | some (selectedNode, stats') =>
      let nm1 : NMState := { nm with NodeStats := stats' }
      if selectedNode.usage > 2 * maxNodeSize then some (.allNodesFull, nm1, s)
      else sendBlockLoop ctx block fileName fuel selectedNode nm1 s

/-- The goroutine fan-out of `UploadFileAndDistributeBlocks` (lines 248–262),
linearized: each block runs `SendBlockToNode`; outcomes are collected like
the bounded error channel.  `none` propagates a panic or exhausted fuel. -/
def distributeBlocks (ctx : UploadCtx) (fileName : String) (fuel : Nat) :
    List FileBlock → NMState → Stores →
    Option (List BlockOutcome × NMState × Stores)
  | [], nm, s => some ([], nm, s)
  | b :: rest, nm, s =>
      match SendBlockToNode ctx b fileName fuel nm s with
      | none => none
      | some (out, nm', s') =>
          match distributeBlocks ctx fileName fuel rest nm' s' with
          | none => none
          | some (outs, nm'', s'') => some (out :: outs, nm'', s'')

/-- `UploadFileAndDistributeBlocks` from `file_manager.go` (lines 173–274),
from the point where the payload has been read and compressed: split the
compressed bytes, store the manifest (block count) under the hashed file
name, then distribute the blocks.  `compress` is the external pgzip writer.
The registry `nm` is the state after the handler's `RetrieveNodeStats`
refresh. -/
def UploadFileAndDistributeBlocks (ctx : UploadCtx)
    (compress : List Nat → List Nat) (fileName : String) (body : List Nat)
    (fuel : Nat) (nm : NMState) (s : Stores) :
    Option (List BlockOutcome × NMState × Stores) :=
  let compressedData := compress body
  let listOfBlocks := SplitFileIntoBlocks compressedData
  let s1 := SendBlockHashWithNumberOfBlocks ctx.digest fileName
    listOfBlocks.length s
  distributeBlocks ctx fileName fuel listOfBlocks nm s1

/- ### Download path (file_manager.go lines 24–171) -/

/-- The distinct error sites of `ReconstructFileFromBlocks`:
`metadataError` — the `HMGet` on a wrongly-typed key returns an error that is
propagated (line 83);
`retrieveFailed` — `"failed to retrieve block from node"` (line 108), also
reached when the location record is missing, because `HMGet` then yields nil
fields without an error and the GET against the `"<nil>"` address fails;
`hashMismatch` — `"block hash mismatch"` (line 136), the spec's
IntegrityError;
`decompressFailed` — the pgzip reader error on the concatenated bytes. -/
inductive ReconstructError where
  | metadataError
  | retrieveFailed
  | hashMismatch
  | decompressFailed
deriving DecidableEq

/-- The block loop of `ReconstructFileFromBlocks` (lines 76–144): for each
`i < numOfBlocks`, fetch the location record of position `i+1`, GET the
block from the recorded node, recompute its digest, compare against the
recorded digest, and append. -/
def reconstructLoop (digest : String → String) (hashBytes : List Nat → String)
    (s : Stores) (fileName : String) :
    List Nat → List Nat → Except ReconstructError (List Nat)
  | [], fileBytes => .ok fileBytes
  | i :: rest, fileBytes =>
      let formattedBs := digest (blockName fileName (i + 1))
      match s.meta formattedBs with
      | some (.count _) => .error .metadataError
      | none => .error .retrieveFailed
      | some (.location nodeAddress blockDataOriginalHash) =>
          match s.nodeFiles nodeAddress (blockBinName fileName (i + 1)) with
          | none => .error .retrieveFailed
          | some bodyByte =>
              if hashBytes bodyByte ≠ blockDataOriginalHash then
                .error .hashMismatch
              else
                reconstructLoop digest hashBytes s fileName rest
                  (fileBytes ++ bodyByte)

/-- `ReconstructFileFromBlocks` from `file_manager.go` (lines 61–171): read
the block count (ignoring the lookup error), run the block loop, then
decompress the concatenation with the external pgzip reader (`decompress`,
`none` = reader error). -/
def ReconstructFileFromBlocks (digest : String → String)
    (hashBytes : List Nat → String) (decompress : List Nat → Option (List Nat))
    (s : Stores) (fileName : String) : Except ReconstructError (List Nat) :=
  let numOfBlocks := GetNumberOfBlocksOfAFile s.meta (digest fileName)
  match reconstructLoop digest hashBytes s fileName
      (List.range numOfBlocks) [] with
  | .error e => .error e
  | .ok fileBytes =>
      match decompress fileBytes with
      | none => .error .decompressFailed
      | some decompressedBytes => .ok decompressedBytes

/-- `DownloadFile` from `file_manager.go` (lines 24–59): on any
reconstruction error respond 500 with no file bytes, otherwise write the
bytes with status 200. -/
def DownloadFile (digest : String → String) (hashBytes : List Nat → String)
    (decompress : List Nat → Option (List Nat)) (s : Stores)
    (fileName : String) : Nat × Option (List Nat) :=
  match ReconstructFileFromBlocks digest hashBytes decompress s fileName with
  | .error _ => (500, none)
  | .ok recomposedBytes => (200, some recomposedBytes)

/-- Modelled from the spec: the compression codec (pgzip) is an external
collaborator, "a pluggable byte-stream transform applied once to the whole
file".  It is modelled as a header-prefixed stream: compression prepends a
fixed non-empty header and the inverse rejects any stream lacking the
header — in particular the empty stream, matching the gzip reader's failure
on input with no gzip header. -/
def gzipHeader : List Nat := [31, 139]

/-- Modelled from the spec: the forward transform of the modelled codec. -/
def gzipCompressModel (data : List Nat) : List Nat := gzipHeader ++ data

/-- Modelled from the spec: the inverse transform of the modelled codec;
`none` on a stream that does not start with the header (pgzip's
`NewReader` error). -/
def gzipDecompressModel (data : List Nat) : Option (List Nat) :=
  if data.take gzipHeader.length = gzipHeader then
    some (data.drop gzipHeader.length)
  else none

theorem gzip_model_roundtrip (data : List Nat) :
    gzipDecompressModel (gzipCompressModel data) = some data := by
  simp [gzipDecompressModel, gzipCompressModel, gzipHeader]

/- ### Claim theorems -/

/-- C7: `SplitFileIntoBlocks` returns blocks whose positions are the
consecutive integers from 1, each block at most 128 MiB long, whose
concatenation in position order is exactly the input; a payload of
exactly 300 MiB yields 3 blocks of sizes 128 MiB, 128 MiB, 44 MiB at
positions 1, 2, 3. -/
theorem splitter_correct (file : List Nat) :
    (SplitFileIntoBlocks file).map FileBlock.position =
        List.range' 1 (SplitFileIntoBlocks file).length
    ∧ (∀ b ∈ SplitFileIntoBlocks file, b.bytes.length ≤ 128 * MB)
    ∧ ((SplitFileIntoBlocks file).map FileBlock.bytes).flatten = file
    ∧ (file.length = 300 * MB →
        (SplitFileIntoBlocks file).map (fun b => b.bytes.length) =
            [128 * MB, 128 * MB, 44 * MB]
        ∧ (SplitFileIntoBlocks file).map FileBlock.position = [1, 2, 3]) := by
  refine ⟨splitFile_map_position file, splitFile_block_le file,
    splitFile_flatten file, ?_⟩
  intro hlen
  have hk : file.length / (128 * MB) = 2 := by
    rw [hlen]; norm_num [MB]
  have hk0 : ¬ file.length / (128 * MB) = 0 := by omega
  constructor
  · unfold SplitFileIntoBlocks
    rw [if_neg hk0, hk]
    have hr : List.range 2 = [0, 1] := by decide
    rw [hr]
    simp only [List.map_append, List.map_cons, List.map_nil, List.length_take,
      List.length_drop, hlen]
    norm_num [MB]
  · unfold SplitFileIntoBlocks
    rw [if_neg hk0, hk]
    have hr : List.range 2 = [0, 1] := by decide
    rw [hr]
    simp

/-- C7 witness: instantiating the splitter theorem at a concrete 300 MiB
payload. -/
theorem splitter_correct_witness :
    (List.replicate (300 * MB) 0).length = 300 * MB
    ∧ ((SplitFileIntoBlocks (List.replicate (300 * MB) 0)).map
          (fun b => b.bytes.length) = [128 * MB, 128 * MB, 44 * MB]
      ∧ (SplitFileIntoBlocks (List.replicate (300 * MB) 0)).map
          FileBlock.position = [1, 2, 3]) :=
  ⟨by simp, (splitter_correct (List.replicate (300 * MB) 0)).2.2.2 (by simp)⟩

/-- C10: the empty payload splits into exactly one block, with position 1 and
empty bytes; every payload splits into at least one block; and the manifest
write performed at upload time records exactly that block count, hence a
count of at least 1. -/
theorem split_empty_one_block :
    SplitFileIntoBlocks [] = [{ bytes := [], position := 1 }]
    ∧ (∀ file : List Nat, 1 ≤ (SplitFileIntoBlocks file).length)
    ∧ (∀ (digest : String → String) (compress : List Nat → List Nat)
        (fileName : String) (body : List Nat) (s : Stores),
        (SendBlockHashWithNumberOfBlocks digest fileName
            (SplitFileIntoBlocks (compress body)).length s).meta
            (digest fileName) =
          some (.count (SplitFileIntoBlocks (compress body)).length)
        ∧ 1 ≤ (SplitFileIntoBlocks (compress body)).length) := by
  refine ⟨by decide, splitFile_length_pos, ?_⟩
  intro digest compress fileName body s
  exact ⟨by simp [SendBlockHashWithNumberOfBlocks], splitFile_length_pos _⟩

/-- C3 (code bug): `DeleteNode` does not remove matching entries — it
overwrites them with the last entry and never truncates, so the lists keep
their length and the last entry gets duplicated; only the no-op part of the
claim (deleting an absent address changes nothing) holds. -/
theorem deleteNode_does_not_remove :
    DeleteNode
        { NodeAddresses := ["http://a", "http://b"],
          NodeStats := [⟨"http://a", 5⟩, ⟨"http://b", 10⟩] }
        ⟨"http://a", 5⟩ =
      { NodeAddresses := ["http://b", "http://b"],
        NodeStats := [⟨"http://b", 10⟩, ⟨"http://b", 10⟩] }
    ∧ (DeleteNode
        { NodeAddresses := ["http://a", "http://b"],
          NodeStats := [⟨"http://a", 5⟩, ⟨"http://b", 10⟩] }
        ⟨"http://a", 5⟩).NodeStats.length = 2
    ∧ DeleteNode
        { NodeAddresses := ["http://b"], NodeStats := [⟨"http://b", 10⟩] }
        ⟨"http://z", 0⟩ =
      { NodeAddresses := ["http://b"], NodeStats := [⟨"http://b", 10⟩] } := by
  refine ⟨by decide, by decide, by decide⟩

/-- C4 (code bug): the probe-failure branch of `VerifyAndRegisterNode` writes
its 500 error without returning, so the unreachable node is still registered
and a 200 is written afterwards; a non-200 probe status panics on a nil
`err.Error()`; only the malformed-URL branch behaves as claimed (400,
nothing registered). -/
theorem verifyAndRegisterNode_registers_on_probe_failure :
    VerifyAndRegisterNode { NodeAddresses := [], NodeStats := [] }
        (fun _ => .transportError) true true "http://n" .transportError =
      .responded [500, 200] { NodeAddresses := ["http://n"], NodeStats := [] }
    ∧ VerifyAndRegisterNode { NodeAddresses := [], NodeStats := [] }
        (fun _ => .transportError) true true "http://n" (.status 503) =
      .panicked
    ∧ VerifyAndRegisterNode { NodeAddresses := [], NodeStats := [] }
        (fun _ => .transportError) true false "http://n" (.status 200) =
      .responded [400] { NodeAddresses := [], NodeStats := [] } := by
  refine ⟨by decide, by decide, by decide⟩

/- ### Registry helper lemmas -/

theorem sortNodesByUsage_perm (l : List Node) :
    List.Perm (sortNodesByUsage l) l :=
  List.perm_insertionSort nodeLE l

theorem sortNodesByUsage_sorted (l : List Node) :
    List.Sorted nodeLE (sortNodesByUsage l) :=
  List.sorted_insertionSort nodeLE l

theorem mem_sortNodesByUsage {x : Node} {l : List Node} :
    x ∈ sortNodesByUsage l ↔ x ∈ l :=
  (sortNodesByUsage_perm l).mem_iff

theorem sortNodesByUsage_ne_nil {l : List Node} (h : l ≠ []) :
    sortNodesByUsage l ≠ [] := by
  intro hs
  apply h
  have hlen := (sortNodesByUsage_perm l).length_eq
  rw [hs] at hlen
  exact List.length_eq_zero.mp hlen.symm

theorem deleteFromStats_length (stats : List Node) (a : String) :
    (deleteFromStats stats a).length = stats.length := by
  unfold deleteFromStats
  cases h : stats.getLast? <;> simp

theorem deleteFromStats_ne_nil {stats : List Node} (h : stats ≠ []) (a : String) :
    deleteFromStats stats a ≠ [] := by
  intro hs
  apply h
  have := deleteFromStats_length stats a
  rw [hs] at this
  exact List.length_eq_zero.mp this.symm

theorem deleteFromStats_address {stats : List Node} {addr : String}
    (hall : ∀ x ∈ stats, x.address = addr) (a : String) :
    ∀ x ∈ deleteFromStats stats a, x.address = addr := by
  intro x hx
  unfold deleteFromStats at hx
  cases h : stats.getLast? with
  | none => rw [h] at hx; exact hall x hx
  | some lst =>
      rw [h] at hx
      obtain ⟨y, hy, hxy⟩ := List.mem_map.mp hx
      have hlst : lst ∈ stats := by
        apply List.mem_of_mem_getLast?
        rw [h]; rfl
      by_cases hc : y.address = a
      · rw [if_pos hc] at hxy
        subst hxy
        exact hall lst hlst
      · rw [if_neg hc] at hxy
        subst hxy
        exact hall y hy

/-- Helper for C2: when every transmission fails and every registered node
has the same address, the retry loop of `SendBlockToNode` never reaches a
terminal outcome, whatever the fuel: `DeleteNode` keeps the registry
non-empty, so the `"no available nodes"` branch is unreachable. -/
theorem sendBlockLoop_allFail (digest : String → String)
    (hashBytes : List Nat → String) (block : FileBlock) (fileName : String)
    (addr : String) :
    ∀ (fuel : Nat) (sel : Node) (nm : NMState) (s : Stores),
      nm.NodeStats ≠ [] → (∀ x ∈ nm.NodeStats, x.address = addr) →
      sendBlockLoop ⟨digest, hashBytes, fun _ => false⟩ block fileName fuel sel
        nm s = none := by
  intro fuel
  induction fuel with
  | zero => intro sel nm s _ _; rfl
  | succ k ih =>
      intro sel nm s hne hall
      have hdel_ne : deleteFromStats nm.NodeStats sel.address ≠ [] :=
        deleteFromStats_ne_nil hne sel.address
      have hdel_all : ∀ x ∈ deleteFromStats nm.NodeStats sel.address,
          x.address = addr := deleteFromStats_address hall sel.address
      obtain ⟨h0, t0, ht⟩ := List.exists_cons_of_ne_nil hdel_ne
      unfold sendBlockLoop
      simp only [TransmitBlock, Bool.false_eq_true, if_false]
      rw [if_neg (by exact hdel_ne)]
      show (match SelectAndUpdateNode (deleteFromStats nm.NodeStats sel.address)
          block.bytes.length with
        | none => none
        | some (sel', stats') =>
            sendBlockLoop ⟨digest, hashBytes, fun _ => false⟩ block fileName k
              sel' { DeleteNode nm sel with NodeStats := stats' } _) = none
      rw [ht]
      show sendBlockLoop _ block fileName k h0 _ _ = none
      apply ih
      · exact sortNodesByUsage_ne_nil (List.cons_ne_nil _ _)
      · intro x hx
        rw [mem_sortNodesByUsage] at hx
        rcases List.mem_cons.mp hx with rfl | hx'
        · exact hdel_all h0 (by rw [ht]; exact List.mem_cons_self _ _)
        · exact hdel_all x (by rw [ht]; exact List.mem_cons_of_mem _ hx')

/-- C2 (code bug): with a single registered node that fails every transfer,
the evicted node is still in the registry (`DeleteNode` is a no-op on the
last entry), it is selected again, and the block task never terminates with
the `"no available nodes"` (UnavailableError) outcome — the loop runs out of
any amount of fuel instead, because the registry can never become empty. -/
theorem evicted_node_reselected_no_unavailable (digest : String → String)
    (hashBytes : List Nat → String) :
    (∀ fuel : Nat,
      SendBlockToNode ⟨digest, hashBytes, fun _ => false⟩
        { bytes := [1], position := 1 } "f" fuel
        { NodeAddresses := ["http://a"], NodeStats := [⟨"http://a", 0⟩] }
        { meta := fun _ => none, nodeFiles := fun _ _ => none } = none)
    ∧ DeleteNode
        { NodeAddresses := ["http://a"], NodeStats := [⟨"http://a", 3⟩] }
        ⟨"http://a", 3⟩ =
      { NodeAddresses := ["http://a"], NodeStats := [⟨"http://a", 3⟩] }
    ∧ SelectAndUpdateNode [⟨"http://a", 3⟩] 1 =
        some (⟨"http://a", 3⟩, [⟨"http://a", 4⟩]) := by
  refine ⟨?_, by decide, by decide⟩
  intro fuel
  have h1 : SendBlockToNode ⟨digest, hashBytes, fun _ => false⟩
      { bytes := [1], position := 1 } "f" fuel
      { NodeAddresses := ["http://a"], NodeStats := [⟨"http://a", 0⟩] }
      { meta := fun _ => none, nodeFiles := fun _ _ => none } =
      sendBlockLoop ⟨digest, hashBytes, fun _ => false⟩
        { bytes := [1], position := 1 } "f" fuel ⟨"http://a", 0⟩
        { NodeAddresses := ["http://a"], NodeStats := [⟨"http://a", 1⟩] }
        { meta := fun _ => none, nodeFiles := fun _ _ => none } := by
    unfold SendBlockToNode
    have hsel : SelectAndUpdateNode [(⟨"http://a", 0⟩ : Node)]
        ([1] : List Nat).length = some (⟨"http://a", 0⟩, [⟨"http://a", 1⟩]) := by
      decide
    rw [hsel]
    dsimp only
    rw [if_neg (by decide : ¬ ((0 : Nat) > 2 * maxNodeSize))]
  rw [h1]
  apply sendBlockLoop_allFail digest hashBytes _ _ "http://a"
  · exact List.cons_ne_nil _ _
  · intro x hx
    rcases List.mem_singleton.mp hx with rfl
    rfl

/-- C5 counterexample: a registry state reached by evicting a node from a
sorted three-node registry is unsorted, and `SelectAndUpdateNode` then
returns the head node with usage 20 even though a registered node with
usage 10 is present — the selection is not minimal on this state. -/
theorem select_not_minimal_after_delete :
    (DeleteNode
        { NodeAddresses := ["http://a", "http://b", "http://c"],
          NodeStats := [⟨"http://a", 5⟩, ⟨"http://b", 10⟩, ⟨"http://c", 20⟩] }
        ⟨"http://a", 5⟩).NodeStats =
      [⟨"http://c", 20⟩, ⟨"http://b", 10⟩, ⟨"http://c", 20⟩]
    ∧ SelectAndUpdateNode
        [⟨"http://c", 20⟩, ⟨"http://b", 10⟩, ⟨"http://c", 20⟩] 1 =
      some (⟨"http://c", 20⟩,
        [⟨"http://b", 10⟩, ⟨"http://c", 20⟩, ⟨"http://c", 21⟩])
    ∧ (⟨"http://b", 10⟩ : Node) ∈
        [(⟨"http://c", 20⟩ : Node), ⟨"http://b", 10⟩, ⟨"http://c", 20⟩]
    ∧ (10 : Nat) < 20 := by
  refine ⟨by decide, by decide, by decide, by decide⟩

/-- C5 amended: on a *non-empty, usage-sorted* registry state,
`SelectAndUpdateNode` returns a registered node of minimal cached usage, the
updated registry is that node with its usage increased by exactly the block
length together with the remaining nodes, and it is sorted again. -/
theorem select_minimal_on_sorted (stats : List Node) (blockLen : Nat)
    (hne : stats ≠ []) (hsorted : List.Sorted nodeLE stats) :
    ∃ sel stats', SelectAndUpdateNode stats blockLen = some (sel, stats')
      ∧ sel ∈ stats
      ∧ (∀ x ∈ stats, sel.usage ≤ x.usage)
      ∧ List.Sorted nodeLE stats'
      ∧ List.Perm stats'
          ({ address := sel.address, usage := sel.usage + blockLen } :: stats.tail) := by
  match stats with
  | [] => exact absurd rfl hne
  | h :: t =>
      refine ⟨h, _, rfl, List.mem_cons_self _ _, ?_, sortNodesByUsage_sorted _, ?_⟩
      · intro x hx
        rcases List.mem_cons.mp hx with rfl | hx'
        · exact Nat.le_refl _
        · exact (List.sorted_cons.mp hsorted).1 x hx'
      · exact sortNodesByUsage_perm _

/-- C5 witness: the amended selection theorem at a concrete sorted
registry. -/
theorem select_minimal_on_sorted_witness :
    ([(⟨"http://a", 1⟩ : Node), ⟨"http://b", 2⟩] ≠ [])
    ∧ List.Sorted nodeLE [⟨"http://a", 1⟩, ⟨"http://b", 2⟩]
    ∧ ∃ sel stats',
        SelectAndUpdateNode [⟨"http://a", 1⟩, ⟨"http://b", 2⟩] 5 =
          some (sel, stats')
        ∧ sel ∈ [(⟨"http://a", 1⟩ : Node), ⟨"http://b", 2⟩]
        ∧ (∀ x ∈ [(⟨"http://a", 1⟩ : Node), ⟨"http://b", 2⟩],
            sel.usage ≤ x.usage)
        ∧ List.Sorted nodeLE stats'
        ∧ List.Perm stats'
            ({ address := sel.address, usage := sel.usage + 5 } ::
              [(⟨"http://a", 1⟩ : Node), ⟨"http://b", 2⟩].tail) :=
  ⟨by decide, by decide,
    select_minimal_on_sorted [⟨"http://a", 1⟩, ⟨"http://b", 2⟩] 5
      (by decide) (by decide)⟩

/-- C6 counterexample: evicting the first node of a sorted, duplicate-free
three-node registry leaves `NodeStats` unsorted and with a duplicated
address, so the sorted/no-duplicates invariant does not survive this
mutation. -/
theorem registry_invariant_broken_by_delete :
    (DeleteNode
        { NodeAddresses := ["http://a", "http://b", "http://c"],
          NodeStats := [⟨"http://a", 5⟩, ⟨"http://b", 10⟩, ⟨"http://c", 20⟩] }
        ⟨"http://a", 5⟩) =
      { NodeAddresses := ["http://c", "http://b", "http://c"],
        NodeStats := [⟨"http://c", 20⟩, ⟨"http://b", 10⟩, ⟨"http://c", 20⟩] }
    ∧ ¬ List.Sorted nodeLE
        [⟨"http://c", 20⟩, ⟨"http://b", 10⟩, ⟨"http://c", 20⟩]
    ∧ ¬ List.Nodup
        ([(⟨"http://c", 20⟩ : Node), ⟨"http://b", 10⟩,
          ⟨"http://c", 20⟩].map Node.address) := by
  refine ⟨by decide, ?_, by decide⟩
  intro hs
  have := (List.sorted_cons.mp hs).1 ⟨"http://b", 10⟩ (by decide)
  exact absurd this (by decide)

/-- C6 amended: the sortedness half of the invariant does hold after the
mutations that re-sort — `SelectAndUpdateNode` always leaves `NodeStats`
sorted ascending by usage, and a successful `RetrieveNodeStats` refresh
(hence a successful registration) returns a usage-sorted list — but
eviction preserves neither sortedness nor address uniqueness. -/
theorem registry_sorted_after_select_and_refresh :
    (∀ (stats : List Node) (blockLen : Nat) (sel : Node) (stats' : List Node),
        SelectAndUpdateNode stats blockLen = some (sel, stats') →
        List.Sorted nodeLE stats')
    ∧ (∀ (addrs : List String) (poll : String → PollResult)
        (nodes : List Node),
        RetrieveNodeStats addrs poll = some nodes →
        List.Sorted nodeLE nodes) := by
  constructor
  · intro stats blockLen sel stats' hsel
    match stats with
    | [] => exact absurd hsel (by simp [SelectAndUpdateNode])
    | h :: t =>
        simp only [SelectAndUpdateNode, Option.some.injEq, Prod.mk.injEq] at hsel
        rw [← hsel.2]
        exact sortNodesByUsage_sorted _
  · intro addrs poll nodes hret
    unfold RetrieveNodeStats at hret
    cases hloop : retrieveNodesLoop poll addrs [] with
    | none => rw [hloop] at hret; exact absurd hret (by simp)
    | some acc =>
        rw [hloop] at hret
        dsimp only at hret
        by_cases hacc : acc = []
        · rw [if_pos hacc] at hret; exact absurd hret (by simp)
        · rw [if_neg hacc] at hret
          rw [← Option.some.inj hret]
          exact sortNodesByUsage_sorted _

/-- C6 witness: the amended sortedness theorem at a concrete selection and a
concrete usage refresh. -/
theorem registry_sorted_witness :
    SelectAndUpdateNode [⟨"http://a", 0⟩] 2 =
        some (⟨"http://a", 0⟩, [⟨"http://a", 2⟩])
    ∧ List.Sorted nodeLE [⟨"http://a", 2⟩]
    ∧ RetrieveNodeStats ["http://a"] (fun _ => .ok 7) = some [⟨"http://a", 7⟩]
    ∧ List.Sorted nodeLE [⟨"http://a", 7⟩] :=
  ⟨by decide,
    registry_sorted_after_select_and_refresh.1 [⟨"http://a", 0⟩] 2
      ⟨"http://a", 0⟩ [⟨"http://a", 2⟩] (by decide),
    by decide,
    registry_sorted_after_select_and_refresh.2 ["http://a"] (fun _ => .ok 7)
      [⟨"http://a", 7⟩] (by decide)⟩

/- ### Download-path lemmas -/

/-- One successful step of the reconstruction loop at 0-based index `i`: a
location record exists for position `i+1`, the recorded node returns bytes,
and their digest equals the recorded digest. -/
def goodStep (digest : String → String) (hashBytes : List Nat → String)
    (s : Stores) (fileName : String) (i : Nat) : Prop :=
  ∃ a h bs,
    s.meta (digest (blockName fileName (i + 1))) = some (.location a h)
    ∧ s.nodeFiles a (blockBinName fileName (i + 1)) = some bs
    ∧ hashBytes bs = h

theorem reconstructLoop_skips_good (digest : String → String)
    (hashBytes : List Nat → String) (s : Stores) (fileName : String) :
    ∀ (l1 l2 : List Nat) (acc : List Nat),
      (∀ j ∈ l1, goodStep digest hashBytes s fileName j) →
      ∃ acc', reconstructLoop digest hashBytes s fileName (l1 ++ l2) acc =
        reconstructLoop digest hashBytes s fileName l2 acc' := by
  intro l1
  induction l1 with
  | nil => intro l2 acc _; exact ⟨acc, rfl⟩
  | cons j rest ih =>
      intro l2 acc hgood
      obtain ⟨a, h, bs, hloc, hfetch, hhash⟩ :=
        hgood j (List.mem_cons_self _ _)
      have hstep : reconstructLoop digest hashBytes s fileName
          ((j :: rest) ++ l2) acc =
          reconstructLoop digest hashBytes s fileName (rest ++ l2)
            (acc ++ bs) := by
        show reconstructLoop digest hashBytes s fileName
          (j :: (rest ++ l2)) acc = _
        rw [reconstructLoop]
        rw [hloc]
        dsimp only
        rw [hfetch]
        dsimp only
        rw [if_neg (not_not_intro hhash)]
      rw [hstep]
      exact ih l2 (acc ++ bs) (fun x hx => hgood x (List.mem_cons_of_mem _ hx))

/-- C8: if every position before `i` reconstructs cleanly but position `i+1`'s
fetched bytes hash differently from the recorded digest, reconstruction
aborts with the `"block hash mismatch"` error (the spec's IntegrityError)
and the download handler responds 500 with no file bytes. -/
theorem integrity_mismatch_aborts (digest : String → String)
    (hashBytes : List Nat → String) (decompress : List Nat → Option (List Nat))
    (s : Stores) (fileName : String) (n i : Nat) (addr storedHash : String)
    (bs : List Nat)
    (hcount : s.meta (digest fileName) = some (.count n))
    (hi : i < n)
    (hprev : ∀ j < i, goodStep digest hashBytes s fileName j)
    (hloc : s.meta (digest (blockName fileName (i + 1))) =
      some (.location addr storedHash))
    (hfetch : s.nodeFiles addr (blockBinName fileName (i + 1)) = some bs)
    (hmismatch : hashBytes bs ≠ storedHash) :
    ReconstructFileFromBlocks digest hashBytes decompress s fileName =
        .error .hashMismatch
    ∧ DownloadFile digest hashBytes decompress s fileName = (500, none) := by
  have hnum : GetNumberOfBlocksOfAFile s.meta (digest fileName) = n := by
    simp [GetNumberOfBlocksOfAFile, hcount]
  obtain ⟨m, hm⟩ : ∃ m, n = i + (m + 1) := ⟨n - i - 1, by omega⟩
  have hsplit : List.range n = List.range i ++ (i :: List.range' (i + 1) m) := by
    rw [hm, List.range_eq_range', Nat.add_comm i (m + 1),
      ← List.range'_append 0 i (m + 1) 1]
    simp [List.range'_succ, List.range_eq_range']
  have hrec : reconstructLoop digest hashBytes s fileName (List.range n) [] =
      .error .hashMismatch := by
    rw [hsplit]
    obtain ⟨acc', hacc⟩ := reconstructLoop_skips_good digest hashBytes s
      fileName (List.range i) (i :: List.range' (i + 1) m) []
      (fun j hj => hprev j (List.mem_range.mp hj))
    rw [hacc]
    rw [reconstructLoop]
    rw [hloc]
    dsimp only
    rw [hfetch]
    dsimp only
    rw [if_pos hmismatch]
  have hrecon : ReconstructFileFromBlocks digest hashBytes decompress s
      fileName = .error .hashMismatch := by
    unfold ReconstructFileFromBlocks
    dsimp only
    rw [hnum, hrec]
  refine ⟨hrecon, ?_⟩
  unfold DownloadFile
  rw [hrecon]

/-- C8 witness: a one-block store whose recorded digest `"X"` differs from
the digest `"H"` of the fetched bytes. -/
theorem integrity_mismatch_witness :
    ReconstructFileFromBlocks (fun k => k) (fun _ => "H") (fun l => some l)
        { meta := fun k => if k = "f" then some (.count 1)
            else if k = "f-block-1" then
              some (.location "http://n" "X") else none,
          nodeFiles := fun a k => if a = "http://n" then
            (if k = "f-block-1.bin" then some [9] else none) else none } "f" =
      .error .hashMismatch
    ∧ DownloadFile (fun k => k) (fun _ => "H") (fun l => some l)
        { meta := fun k => if k = "f" then some (.count 1)
            else if k = "f-block-1" then
              some (.location "http://n" "X") else none,
          nodeFiles := fun a k => if a = "http://n" then
            (if k = "f-block-1.bin" then some [9] else none) else none } "f" =
      (500, none) :=
  integrity_mismatch_aborts (fun k => k) (fun _ => "H") (fun l => some l) _ "f"
    1 0 "http://n" "X" [9] (by decide) (by decide)
    (fun j hj => absurd hj (Nat.not_lt_zero j)) (by decide) (by decide)
    (by decide)

/-- C9 amended: downloading a file name with no manifest entry fails — the
manifest lookup error is discarded, the block count defaults to 0, and
decompressing the empty concatenation fails — so the handler responds 500
with no bytes; it is not an empty successful response and not a 404-class
failure. -/
theorem download_missing_manifest (digest : String → String)
    (hashBytes : List Nat → String) (s : Stores) (fileName : String)
    (hmiss : s.meta (digest fileName) = none) :
    ReconstructFileFromBlocks digest hashBytes gzipDecompressModel s fileName =
        .error .decompressFailed
    ∧ DownloadFile digest hashBytes gzipDecompressModel s fileName =
        (500, none) := by
  have hnum : GetNumberOfBlocksOfAFile s.meta (digest fileName) = 0 := by
    simp [GetNumberOfBlocksOfAFile, hmiss]
  have hrecon : ReconstructFileFromBlocks digest hashBytes gzipDecompressModel
      s fileName = .error .decompressFailed := by
    unfold ReconstructFileFromBlocks
    dsimp only
    rw [hnum]
    rfl
  refine ⟨hrecon, ?_⟩
  unfold DownloadFile
  rw [hrecon]

/-- C9 witness: the amended missing-manifest theorem at a concrete empty
store. -/
theorem download_missing_manifest_witness :
    ({ meta := fun _ => none, nodeFiles := fun _ _ => none } : Stores).meta
        ((fun k => k) "g.txt") = none
    ∧ ReconstructFileFromBlocks (fun k => k) (fun _ => "") gzipDecompressModel
        { meta := fun _ => none, nodeFiles := fun _ _ => none } "g.txt" =
        .error .decompressFailed
    ∧ DownloadFile (fun k => k) (fun _ => "") gzipDecompressModel
        { meta := fun _ => none, nodeFiles := fun _ _ => none } "g.txt" =
        (500, none) :=
  ⟨rfl,
    (download_missing_manifest (fun k => k) (fun _ => "")
      { meta := fun _ => none, nodeFiles := fun _ _ => none } "g.txt" rfl).1,
    (download_missing_manifest (fun k => k) (fun _ => "")
      { meta := fun _ => none, nodeFiles := fun _ _ => none } "g.txt" rfl).2⟩

/-- C9 counterexample: with no manifest for `"missing.txt"`, the download
responds 500 — not a 404-class failure — and the reconstruction error is the
decompression failure on the empty concatenation, with no bytes returned. -/
theorem download_missing_manifest_counterexample :
    DownloadFile (fun k => k) (fun _ => "") gzipDecompressModel
        { meta := fun _ => none, nodeFiles := fun _ _ => none } "missing.txt" =
      (500, none)
    ∧ ReconstructFileFromBlocks (fun k => k) (fun _ => "") gzipDecompressModel
        { meta := fun _ => none, nodeFiles := fun _ _ => none } "missing.txt" =
      .error .decompressFailed
    ∧ (500 : Nat) ≠ 404 := by
  refine ⟨by rfl, by rfl, by decide⟩

/- ### Upload-path lemmas -/

/-- Total byte length of a block list. -/
def blocksTotalLen (bs : List FileBlock) : Nat :=
  (bs.map (fun b => b.bytes.length)).sum

theorem splitFile_totalLen (file : List Nat) :
    blocksTotalLen (SplitFileIntoBlocks file) = file.length := by
  unfold blocksTotalLen
  have h1 : (SplitFileIntoBlocks file).map (fun b => b.bytes.length) =
      ((SplitFileIntoBlocks file).map FileBlock.bytes).map List.length := by
    rw [List.map_map]; rfl
  rw [h1, ← List.length_flatten, splitFile_flatten]

/-- Healthy-path behaviour of the block fan-out: when every transmission
succeeds, every block is placed on the first attempt; afterwards each
block's location record and node copy are in place, and every key not
belonging to one of these blocks is untouched. -/
theorem distributeBlocks_healthy (digest : String → String)
    (hashBytes : List Nat → String) (fileName : String) (fuel : Nat) :
    ∀ (bs : List FileBlock) (nm : NMState) (s : Stores),
      nm.NodeStats ≠ [] →
      (∀ x ∈ nm.NodeStats, x.usage + blocksTotalLen bs ≤ 2 * maxNodeSize) →
      (bs.map (fun b => digest (blockName fileName b.position))).Nodup →
      (bs.map (fun b => blockBinName fileName b.position)).Nodup →
      ∃ nm' s',
        distributeBlocks ⟨digest, hashBytes, fun _ => true⟩ fileName (fuel + 1)
            bs nm s = some (List.replicate bs.length .ok, nm', s')
        ∧ (∀ b ∈ bs, ∃ a,
            s'.meta (digest (blockName fileName b.position)) =
              some (.location a (hashBytes b.bytes))
            ∧ s'.nodeFiles a (blockBinName fileName b.position) = some b.bytes)
        ∧ (∀ k, k ∉ bs.map (fun b => digest (blockName fileName b.position)) →
            s'.meta k = s.meta k)
        ∧ (∀ a k, k ∉ bs.map (fun b => blockBinName fileName b.position) →
            s'.nodeFiles a k = s.nodeFiles a k)
        ∧ nm'.NodeStats ≠ [] := by
  intro bs
  induction bs with
  | nil =>
      intro nm s hne _ _ _
      exact ⟨nm, s, rfl, fun b hb => absurd hb (List.not_mem_nil b),
        fun k _ => rfl, fun a k _ => rfl, hne⟩
  | cons b rest ih =>
      intro nm s hne hcap hkeys hbins
      obtain ⟨h0, t0, hstats⟩ := List.exists_cons_of_ne_nil hne
      have hb0 : h0 ∈ nm.NodeStats := by
        rw [hstats]; exact List.mem_cons_self _ _
      have htot : blocksTotalLen (b :: rest) =
          b.bytes.length + blocksTotalLen rest := by
        simp [blocksTotalLen]
      have hcapb : ¬ (h0.usage > 2 * maxNodeSize) := by
        have := hcap h0 hb0
        omega
      have hsend : SendBlockToNode ⟨digest, hashBytes, fun _ => true⟩ b
          fileName (fuel + 1) nm s =
          some (.ok,
            { nm with NodeStats := (sortNodesByUsage
                ({ address := h0.address,
                   usage := h0.usage + b.bytes.length } :: t0)) },
            { meta := (Function.update s.meta
                (digest (blockName fileName b.position))
                (some (.location h0.address (hashBytes b.bytes)))),
              nodeFiles := (Function.update s.nodeFiles h0.address
                (Function.update (s.nodeFiles h0.address)
                  (blockBinName fileName b.position) (some b.bytes))) }) := by
        unfold SendBlockToNode
        rw [hstats]
        dsimp only [SelectAndUpdateNode]
        rw [if_neg hcapb]
        rfl
      have hne1 : sortNodesByUsage
          ({ address := h0.address,
             usage := h0.usage + b.bytes.length } :: t0) ≠ [] :=
        sortNodesByUsage_ne_nil (List.cons_ne_nil _ _)
      have hcap1 : ∀ x ∈ sortNodesByUsage
          ({ address := h0.address,
             usage := h0.usage + b.bytes.length } :: t0),
          x.usage + blocksTotalLen rest ≤ 2 * maxNodeSize := by
        intro x hx
        rw [mem_sortNodesByUsage] at hx
        rcases List.mem_cons.mp hx with rfl | hx'
        · have := hcap h0 hb0
          simp only []
          omega
        · have := hcap x (by rw [hstats]; exact List.mem_cons_of_mem _ hx')
          omega
      obtain ⟨nm', s', hdist, hrecords, hmeta, hnf, hne'⟩ :=
        ih { nm with NodeStats := (sortNodesByUsage
              ({ address := h0.address,
                 usage := h0.usage + b.bytes.length } :: t0)) }
          { meta := (Function.update s.meta
              (digest (blockName fileName b.position))
              (some (.location h0.address (hashBytes b.bytes)))),
            nodeFiles := (Function.update s.nodeFiles h0.address
              (Function.update (s.nodeFiles h0.address)
                (blockBinName fileName b.position) (some b.bytes))) }
          hne1 hcap1 (List.nodup_cons.mp hkeys).2 (List.nodup_cons.mp hbins).2
      have hkeyb : digest (blockName fileName b.position) ∉
          rest.map (fun x => digest (blockName fileName x.position)) :=
        (List.nodup_cons.mp hkeys).1
      have hbinb : blockBinName fileName b.position ∉
          rest.map (fun x => blockBinName fileName x.position) :=
        (List.nodup_cons.mp hbins).1
      refine ⟨nm', s', ?_, ?_, ?_, ?_, hne'⟩
      · rw [distributeBlocks, hsend]
        dsimp only
        rw [hdist]
        rfl
      · intro b' hb'
        rcases List.mem_cons.mp hb' with rfl | hb''
        · refine ⟨h0.address, ?_, ?_⟩
          · rw [hmeta _ hkeyb]
            exact Function.update_same _ _ _
          · rw [hnf _ _ hbinb]
            dsimp only
            rw [Function.update_same, Function.update_same]
        · exact hrecords b' hb''
      · intro k hk
        simp only [List.map_cons, List.mem_cons, not_or] at hk
        rw [hmeta k hk.2]
        exact Function.update_noteq hk.1 _ _
      · intro a k hk
        simp only [List.map_cons, List.mem_cons, not_or] at hk
        rw [hnf a k hk.2]
        dsimp only
        by_cases ha : a = h0.address
        · subst ha
          rw [Function.update_same, Function.update_noteq hk.1]
        · rw [Function.update_noteq ha]

/-- When the store holds a matching location record and node copy for each
block of a position-consecutive block list, the reconstruction loop returns
the concatenation of the blocks in position order. -/
theorem reconstructLoop_blocks (digest : String → String)
    (hashBytes : List Nat → String) (s : Stores) (fileName : String) :
    ∀ (bs : List FileBlock) (start : Nat) (acc : List Nat),
      bs.map FileBlock.position = List.range' (start + 1) bs.length →
      (∀ b ∈ bs, ∃ a,
        s.meta (digest (blockName fileName b.position)) =
          some (.location a (hashBytes b.bytes))
        ∧ s.nodeFiles a (blockBinName fileName b.position) = some b.bytes) →
      reconstructLoop digest hashBytes s fileName
          (List.range' start bs.length) acc =
        .ok (acc ++ (bs.map FileBlock.bytes).flatten) := by
  intro bs
  induction bs with
  | nil => intro start acc _ _; simp [reconstructLoop]
  | cons b rest ih =>
      intro start acc hpos hrec
      rw [List.map_cons, List.length_cons, List.range'_succ _ _ 1,
        List.cons.injEq] at hpos
      obtain ⟨hbpos, hrestpos⟩ := hpos
      obtain ⟨a, hloc, hfetch⟩ := hrec b (List.mem_cons_self _ _)
      rw [hbpos] at hloc hfetch
      show reconstructLoop digest hashBytes s fileName
        (List.range' start (rest.length + 1)) acc = _
      rw [List.range'_succ _ _ 1, reconstructLoop]
      rw [hloc]
      dsimp only
      rw [hfetch]
      dsimp only
      rw [if_neg (not_not_intro rfl)]
      rw [ih (start + 1) (acc ++ b.bytes) hrestpos
        (fun x hx => hrec x (List.mem_cons_of_mem _ hx))]
      rw [List.map_cons, List.flatten_cons, List.append_assoc]

/-- C1: round-trip.  With every node healthy and responsive (all transfers
succeed), a non-empty registry, enough capacity headroom, a collision-free
key digest on the keys this upload derives, and a codec whose inverse
recovers the compressed stream, uploading a payload and then downloading
the same file name returns exactly the original bytes. -/
theorem upload_download_roundtrip (digest : String → String)
    (hashBytes : List Nat → String) (compress : List Nat → List Nat)
    (decompress : List Nat → Option (List Nat)) (fileName : String)
    (body : List Nat) (fuel : Nat) (nm : NMState) (s : Stores)
    (hcodec : decompress (compress body) = some body)
    (hne : nm.NodeStats ≠ [])
    (hcap : ∀ x ∈ nm.NodeStats,
      x.usage + (compress body).length ≤ 2 * maxNodeSize)
    (hkeys : ((SplitFileIntoBlocks (compress body)).map
        (fun b => digest (blockName fileName b.position))).Nodup)
    (hbins : ((SplitFileIntoBlocks (compress body)).map
        (fun b => blockBinName fileName b.position)).Nodup)
    (hman : digest fileName ∉ (SplitFileIntoBlocks (compress body)).map
        (fun b => digest (blockName fileName b.position))) :
    ∃ nm' s',
      UploadFileAndDistributeBlocks ⟨digest, hashBytes, fun _ => true⟩
          compress fileName body (fuel + 1) nm s =
        some (List.replicate (SplitFileIntoBlocks (compress body)).length
          BlockOutcome.ok, nm', s')
      ∧ ReconstructFileFromBlocks digest hashBytes decompress s' fileName =
          .ok body
      ∧ DownloadFile digest hashBytes decompress s' fileName =
          (200, some body) := by
  have hcap' : ∀ x ∈ nm.NodeStats,
      x.usage + blocksTotalLen (SplitFileIntoBlocks (compress body)) ≤
        2 * maxNodeSize := by
    intro x hx
    have h1 := hcap x hx
    have h2 := splitFile_totalLen (compress body)
    omega
  obtain ⟨nm', s', hdist, hrecords, hmeta, hnf, hne'⟩ :=
    distributeBlocks_healthy digest hashBytes fileName fuel
      (SplitFileIntoBlocks (compress body)) nm
      (SendBlockHashWithNumberOfBlocks digest fileName
        (SplitFileIntoBlocks (compress body)).length s)
      hne hcap' hkeys hbins
  have hcount : s'.meta (digest fileName) =
      some (.count (SplitFileIntoBlocks (compress body)).length) := by
    rw [hmeta _ hman]
    unfold SendBlockHashWithNumberOfBlocks
    dsimp only
    exact Function.update_same _ _ _
  have hnum : GetNumberOfBlocksOfAFile s'.meta (digest fileName) =
      (SplitFileIntoBlocks (compress body)).length := by
    simp [GetNumberOfBlocksOfAFile, hcount]
  have hloop : reconstructLoop digest hashBytes s' fileName
      (List.range (SplitFileIntoBlocks (compress body)).length) [] =
      .ok (((SplitFileIntoBlocks (compress body)).map
        FileBlock.bytes).flatten) := by
    rw [List.range_eq_range']
    have h := reconstructLoop_blocks digest hashBytes s' fileName
      (SplitFileIntoBlocks (compress body)) 0 []
      (by simpa using splitFile_map_position (compress body)) hrecords
    simpa using h
  have hrecon : ReconstructFileFromBlocks digest hashBytes decompress s'
      fileName = .ok body := by
    unfold ReconstructFileFromBlocks
    dsimp only
    rw [hnum, hloop]
    dsimp only
    rw [splitFile_flatten, hcodec]
  refine ⟨nm', s', hdist, hrecon, ?_⟩
  unfold DownloadFile
  rw [hrecon]

/-- C1 witness: a concrete three-byte payload, the modelled codec, the
identity key digest, and a single healthy empty node. -/
theorem upload_download_roundtrip_witness :
    gzipDecompressModel (gzipCompressModel [1, 2, 3]) = some [1, 2, 3]
    ∧ ([(⟨"http://n", 0⟩ : Node)] ≠ [])
    ∧ ((SplitFileIntoBlocks (gzipCompressModel [1, 2, 3])).map
        (fun b => (fun k => k) (blockName "f" b.position))).Nodup
    ∧ ((fun k => k) "f" ∉ (SplitFileIntoBlocks (gzipCompressModel [1, 2, 3])).map
        (fun b => (fun k => k) (blockName "f" b.position)))
    ∧ ∃ nm' s',
        UploadFileAndDistributeBlocks
            ⟨fun k => k, fun _ => "H", fun _ => true⟩ gzipCompressModel "f"
            [1, 2, 3] 1
            { NodeAddresses := ["http://n"], NodeStats := [⟨"http://n", 0⟩] }
            { meta := fun _ => none, nodeFiles := fun _ _ => none } =
          some (List.replicate
            (SplitFileIntoBlocks (gzipCompressModel [1, 2, 3])).length
            BlockOutcome.ok, nm', s')
        ∧ ReconstructFileFromBlocks (fun k => k) (fun _ => "H")
            gzipDecompressModel s' "f" = .ok [1, 2, 3]
        ∧ DownloadFile (fun k => k) (fun _ => "H") gzipDecompressModel s'
            "f" = (200, some [1, 2, 3]) :=
  ⟨by decide, by decide, by decide, by decide,
    upload_download_roundtrip (fun k => k) (fun _ => "H") gzipCompressModel
      gzipDecompressModel "f" [1, 2, 3] 0
      { NodeAddresses := ["http://n"], NodeStats := [⟨"http://n", 0⟩] }
      { meta := fun _ => none, nodeFiles := fun _ _ => none }
      (by decide) (by decide) (by decide) (by decide) (by decide) (by decide)⟩
